import Mathlib

/-!
Shallow embedding of the pokedex set-data pipeline.

The repository has two variants of the same pipeline:
* `build-sets-data.py` (the "local" variant): reads card lists from local
  files, groups Pokémon cards by national-dex number (falling back to a
  normalized name) and summarizes rarity.
* `fetch-sets.py` (the "remote" variant): fetches card lists from a paginated
  HTTP API with retry, resume-from-checkpoint and per-set failure recording,
  and groups Pokémon cards by normalized name only.

File and network I/O are modelled by explicit oracles; Python exceptions by
`Except`/`Option`; the unbounded `while True` page loop by a fuel parameter.
-/

namespace Pokedex

/-! ### Name normalization (`normalize_pokemon_name`, identical in both files)

The Python code lowercases, strips, splits on whitespace, removes the fixed
suffix/prefix tokens and rejoins with single spaces, returning `None` for a
falsy input or when no token survives.  Strings are modelled through their
character lists; `str.split()` (split on runs of whitespace, dropping empty
pieces, which also subsumes `.strip()`) is `splitWs`. -/

/-- Python `str.lower()`, through the character list. -/
def strLower (s : String) : String :=
  (s.toList.map Char.toLower).asString

/-- `str.split()` worker: `cur` is the pending chunk of non-whitespace
characters read so far. -/
def splitWsGo : List Char → List Char → List (List Char)
  | [], cur => if cur = [] then [] else [cur]
  | c :: rest, cur =>
    if c.isWhitespace then
      (if cur = [] then [] else [cur]) ++ splitWsGo rest []
    else
      splitWsGo rest (cur ++ [c])

/-- Python `str.split()` on whitespace, dropping empty pieces. -/
def splitWs (cs : List Char) : List (List Char) :=
  splitWsGo cs []

/-- `' '.join(...)` on character lists. -/
def joinSp : List (List Char) → List Char
  | [] => []
  | [t] => t
  | t :: ts => t ++ ' ' :: joinSp ts

/-- The fixed card-variant marker tokens (`suffixes` in the source). -/
def suffixTokens : List (List Char) :=
  ["ex", "gx", "v", "vmax", "vstar", "vunion"].map String.toList

/-- The fixed naming-convention tokens (`prefixes` in the source). -/
def prefixTokens : List (List Char) :=
  ["team", "rockets", "rocket", "dark", "light", "shining", "radiant"].map String.toList

/-- Keep the tokens that are in neither fixed table. -/
def keepToken (t : List Char) : Bool :=
  decide (t ∉ suffixTokens) && decide (t ∉ prefixTokens)

/-- `normalize_pokemon_name` from both source files: `None` on a falsy
(empty) input, otherwise lowercase, split on whitespace, drop the fixed
suffix/prefix tokens, rejoin with single spaces; `None` when nothing
survives. -/
def normalize_pokemon_name (name : String) : Option String :=
  if name = "" then none
  else
    let filtered := (splitWs (name.toList.map Char.toLower)).filter keepToken
    if filtered = [] then none else some (joinSp filtered).asString

/-! ### Data model

`RawCard` is the projection of an upstream card JSON object onto the fields
either script reads.  A field read with `card.get(k, default)` whose default
matters is an `Option`; the others default to the empty value on absence. -/

/-- A raw upstream card record (fields read by the scripts). -/
structure RawCard where
  supertype : String
  name : String
  number : String
  rarity : Option String
  types : List String
  subtypes : List String
  image_small : String
  /-- `nationalPokedexNumbers` (read only by the local variant). -/
  dexNumbers : List Nat
deriving DecidableEq, Inhabited

/-- `card_info` as built by `build-sets-data.py` (keeps `dex_numbers`). -/
structure CardInfoL where
  card_name : String
  number : String
  rarity : String
  types : List String
  image_small : String
  subtypes : List String
  dex_numbers : List Nat
deriving DecidableEq, Inhabited

/-- `card_info` as built by `fetch-sets.py` (no `dex_numbers` field). -/
structure CardInfoR where
  card_name : String
  number : String
  rarity : String
  types : List String
  image_small : String
  subtypes : List String
deriving DecidableEq, Inhabited

/-- The local variant's grouping key: `f"dex_{n}"` or a normalized name
(the spec's `IdentityKey`: `Dex(n)` or `Name(s)`). -/
inductive Key where
  | dex (n : Nat)
  | nm (s : String)
deriving DecidableEq

/-- The `card_info` projection of the local variant
(`rarity` via `card.get('rarity', 'Common')`). -/
def cardInfoL (c : RawCard) : CardInfoL :=
  { card_name := c.name, number := c.number, rarity := c.rarity.getD "Common"
    types := c.types, image_small := c.image_small, subtypes := c.subtypes
    dex_numbers := c.dexNumbers }

/-- The `card_info` projection of the remote variant. -/
def cardInfoR (c : RawCard) : CardInfoR :=
  { card_name := c.name, number := c.number, rarity := c.rarity.getD "Common"
    types := c.types, image_small := c.image_small, subtypes := c.subtypes }

/-- Local grouping key: first dex number when present, else the normalized
name, `none` when neither resolves (the card is then skipped). -/
def localKey (c : RawCard) : Option Key :=
  match c.dexNumbers with
  | n :: _ => some (Key.dex n)
  | [] => (normalize_pokemon_name c.name).map Key.nm

/-- Remote grouping key: always the normalized name. -/
def remoteKey (c : RawCard) : Option String :=
  normalize_pokemon_name c.name

/-! ### Grouping (`defaultdict(list)` with Python's insertion-ordered keys) -/

/-- `pokemon_cards[key].append(ci)` on an insertion-ordered association
list: append to the existing group, or add a new group at the end. -/
def addToGroups {α β : Type} [DecidableEq α]
    (gs : List (α × List β)) (k : α) (ci : β) : List (α × List β) :=
  match gs with
  | [] => [(k, [ci])]
  | (k', l) :: rest =>
    if k' = k then (k', l ++ [ci]) :: rest else (k', l) :: addToGroups rest k ci

/-- One iteration of the local card loop: skip non-Pokémon cards and cards
with no usable key, otherwise file the projection under its key. -/
def stepL (gs : List (Key × List CardInfoL)) (c : RawCard) : List (Key × List CardInfoL) :=
  if c.supertype ≠ "Pokémon" then gs
  else
    match localKey c with
    | none => gs
    | some k => addToGroups gs k (cardInfoL c)

/-- One iteration of the remote card loop. -/
def stepR (gs : List (String × List CardInfoR)) (c : RawCard) : List (String × List CardInfoR) :=
  if c.supertype ≠ "Pokémon" then gs
  else
    match remoteKey c with
    | none => gs
    | some k => addToGroups gs k (cardInfoR c)

/-- The local variant's `pokemon_cards` groups, in key-insertion order. -/
def pokemonGroupsL (cards : List RawCard) : List (Key × List CardInfoL) :=
  cards.foldl stepL []

/-- The remote variant's `pokemon_cards` groups, in key-insertion order. -/
def pokemonGroupsR (cards : List RawCard) : List (String × List CardInfoR) :=
  cards.foldl stepR []

/-! ### Rarity mode (`max(set(rarities), key=rarities.count)`)

Python iterates the `set` of distinct values in an unspecified order and
`max` keeps the first value attaining the maximal count; the distinct values
are modelled in `dedup` order (any order yields a maximal-count value, which
is all the code relies on). -/

/-- `max(set(l), key=l.count)`; `""` on the empty list (Python would raise,
but every group is non-empty). -/
def pyModeMax (l : List String) : String :=
  match l.dedup with
  | [] => ""
  | x :: xs => xs.foldl (fun best y => if l.count best < l.count y then y else best) x

/-! ### Creature entries and set records -/

/-- A `set_data['pokemon']` entry of the local variant. -/
structure PokemonEntryL where
  name : String
  dex_number : Option Nat
  dex_numbers : List Nat
  rarity : String
  card_count : Nat
  cards : List CardInfoL
deriving DecidableEq, Inhabited

/-- A `set_data['pokemon']` entry of the remote variant (no dex fields). -/
structure PokemonEntryR where
  name : String
  rarity : String
  card_count : Nat
  cards : List CardInfoR
deriving DecidableEq, Inhabited

/-- Build one local entry from a group (`build-sets-data.py` lines 150-175).
Groups are never empty, so `headI` is the Python `cards_list[0]`. -/
def mkEntryL (k : Key) (cards_list : List CardInfoL) : PokemonEntryL :=
  let rarities := (cards_list.map (·.rarity)).filter (fun r => decide (r ≠ ""))
  let most_common_rarity := if rarities = [] then "Common" else pyModeMax rarities
  let pokemon_name := match k with
    | .dex _ => cards_list.headI.card_name
    | .nm s => s
  let all_dex := ((cards_list.map (·.dex_numbers)).flatten).dedup
  { name := (normalize_pokemon_name cards_list.headI.card_name).getD pokemon_name
    dex_number := match k with | .dex n => some n | .nm _ => none
    dex_numbers := if all_dex = [] then [] else all_dex.insertionSort (· ≤ ·)
    rarity := most_common_rarity
    card_count := cards_list.length
    cards := cards_list }

/-- Build one remote entry from a group (`fetch-sets.py` lines 180-190). -/
def mkEntryR (pokemon_name : String) (cards_list : List CardInfoR) : PokemonEntryR :=
  { name := pokemon_name
    rarity := pyModeMax (cards_list.map (·.rarity))
    card_count := cards_list.length
    cards := cards_list }

/-- The local variant's `set_data['pokemon']` list for one set's cards. -/
def localPokemon (cards : List RawCard) : List PokemonEntryL :=
  (pokemonGroupsL cards).map fun g => mkEntryL g.1 g.2

/-- The remote variant's `set_data['pokemon']` list for one set's cards. -/
def remotePokemon (cards : List RawCard) : List PokemonEntryR :=
  (pokemonGroupsR cards).map fun g => mkEntryR g.1 g.2

/-- An upstream set descriptor (fields read by the scripts). -/
structure SetInfo where
  id : String
  name : String
  series : String
  releaseDate : String
  total : Nat
  logo : String
  symbol : String
deriving DecidableEq, Inhabited

/-- A `set_data` record of the local variant. -/
structure SetDataL where
  id : String
  name : String
  series : String
  release_date : String
  total_cards : Nat
  logo : String
  symbol : String
  pokemon : List PokemonEntryL
deriving DecidableEq, Inhabited

/-- A `set_data` record of the remote variant. -/
structure SetDataR where
  id : String
  name : String
  series : String
  release_date : String
  total_cards : Nat
  logo : String
  symbol : String
  pokemon : List PokemonEntryR
deriving DecidableEq, Inhabited

/-- Assemble a local `set_data` record. -/
def mkSetDataL (s : SetInfo) (cards : List RawCard) : SetDataL :=
  { id := s.id, name := s.name, series := s.series, release_date := s.releaseDate
    total_cards := s.total, logo := s.logo, symbol := s.symbol
    pokemon := localPokemon cards }

/-- Assemble a remote `set_data` record. -/
def mkSetDataR (s : SetInfo) (cards : List RawCard) : SetDataR :=
  { id := s.id, name := s.name, series := s.series, release_date := s.releaseDate
    total_cards := s.total, logo := s.logo, symbol := s.symbol
    pokemon := remotePokemon cards }

/-! ### Series filtering (`load_sets` / `fetch_all_sets`)

The caller passes `None`, a single name, or a list of names.  Python's
truthiness test `if series_filter:` skips filtering for `None`, `""` and
`[]`.  The remote variant only handles a single name: a non-empty list makes
`series_filter.lower()` raise `AttributeError`, aborting the run. -/

/-- The `series_filter` configuration value. -/
inductive SeriesFilter where
  | off
  | single (s : String)
  | names (l : List String)
deriving DecidableEq

/-- `load_sets` filtering (`build-sets-data.py` lines 44-51), applied to the
set list read from disk. -/
def load_sets (sets : List SetInfo) (f : SeriesFilter) : List SetInfo :=
  match f with
  | .off => sets
  | .single s => if s = "" then sets
      else sets.filter fun st => strLower st.series == strLower s
  | .names l => if l = [] then sets
      else sets.filter fun st => l.contains st.series

/-- `fetch_all_sets` filtering (`fetch-sets.py` lines 64-68), applied to the
set list returned by the API.  A non-empty list filter makes
`series_filter.lower()` raise `AttributeError` — but that expression sits
inside the comprehension's condition, evaluated once per element, so the
error (modelled as `none`) occurs only when the fetched set list is
non-empty; on an empty list the comprehension returns `[]` unharmed. -/
def fetch_all_sets (sets : List SetInfo) (f : SeriesFilter) : Option (List SetInfo) :=
  match f with
  | .off => some sets
  | .single s => if s = "" then some sets
      else some (sets.filter fun st => strLower st.series == strLower s)
  | .names l => if l = [] then some sets
      else if sets = [] then some [] else none

/-! ### Local pipeline driver (`build-sets-data.py` `build_sets_data`)

The card source (one JSON file per set id) is an oracle
`String → Option (List RawCard)`; a missing file records the set as skipped
and the loop continues. -/

/-- The local per-set loop, accumulating `(sets_data, skipped_sets)`. -/
def localDriver (source : String → Option (List RawCard)) :
    List SetInfo → List SetDataL × List (String × String) →
    List SetDataL × List (String × String)
  | [], st => st
  | s :: rest, (data, skipped) =>
    match source s.id with
    | none => localDriver source rest (data, skipped ++ [(s.id, s.name)])
    | some cards => localDriver source rest (data ++ [mkSetDataL s cards], skipped)

/-- `build_sets_data` of the local variant, on an already-filtered set
list. -/
def build_sets_data_local (source : String → Option (List RawCard))
    (sets : List SetInfo) : List SetDataL × List (String × String) :=
  localDriver source sets ([], [])

/-! ### Remote pipeline driver (`fetch-sets.py` `build_sets_data`)

The paginated card endpoint for one set is an oracle
`fp : Nat → Except String (List RawCard × Nat)` giving each page's `data`
and `totalCount` (an `error` models an exception escaping
`fetch_with_retry`).  The unbounded `while True` loop takes fuel; running
out of fuel models divergence and yields `none`. -/

/-- `page_size = 50` in `fetch-sets.py`. -/
def page_size : Nat := 50

/-- The page-fetch loop (`fetch-sets.py` lines 143-152): accumulate each
page's cards and stop once `page >= totalCount // page_size + 1`.  Returns
the accumulated cards and the number of pages fetched. -/
def pageLoopE (fp : Nat → Except String (List RawCard × Nat)) :
    Nat → Nat → List RawCard → Nat → Option (Except String (List RawCard × Nat))
  | 0, _, _, _ => none
  | fuel + 1, page, acc, cnt =>
    match fp page with
    | .error e => some (.error e)
    | .ok (cards, total) =>
      if total / page_size + 1 ≤ page then some (.ok (acc ++ cards, cnt + 1))
      else pageLoopE fp fuel (page + 1) (acc ++ cards) (cnt + 1)

/-- A `failed_sets` entry: `{'id': ..., 'name': ..., 'error': ...}`. -/
structure FailedSet where
  id : String
  name : String
  error : String
deriving DecidableEq, Inhabited

/-- The remote per-set loop.  Sets whose id is in `processed` are skipped;
a fetch error is recorded in the failure list and the loop continues; on
success the record is appended and the whole accumulated artifact is
checkpointed via `save`, whose failure is caught and only logged (both
branches of the `match` continue identically, as the source's inner
`try/except` only prints a warning). -/
def remoteDriver (fp : String → Nat → Except String (List RawCard × Nat))
    (save : List SetDataR → Bool) (fuel : Nat) (processed : List String) :
    List SetInfo → List SetDataR × List FailedSet →
    Option (List SetDataR × List FailedSet)
  | [], st => some st
  | s :: rest, (data, failed) =>
    if processed.contains s.id then
      remoteDriver fp save fuel processed rest (data, failed)
    else
      match pageLoopE (fp s.id) fuel 1 [] 0 with
      | none => none
      | some (.error e) =>
        remoteDriver fp save fuel processed rest (data, failed ++ [⟨s.id, s.name, e⟩])
      | some (.ok (cards, _)) =>
        match save (data ++ [mkSetDataR s cards]) with
        | true => remoteDriver fp save fuel processed rest (data ++ [mkSetDataR s cards], failed)
        | false => remoteDriver fp save fuel processed rest (data ++ [mkSetDataR s cards], failed)

/-- `build_sets_data` of the remote variant: load the previously persisted
artifact (`loaded`), index its ids, then process the listed sets. -/
def build_sets_data_remote (fp : String → Nat → Except String (List RawCard × Nat))
    (save : List SetDataR → Bool) (fuel : Nat) (loaded : List SetDataR)
    (sets : List SetInfo) : Option (List SetDataR × List FailedSet) :=
  remoteDriver fp save fuel (loaded.map (·.id)) sets (loaded, [])

/-- Whether the page loop for a set id finishes without error on the given
fuel. -/
def fetchSucceeds (fp : String → Nat → Except String (List RawCard × Nat))
    (fuel : Nat) (id : String) : Bool :=
  match pageLoopE (fp id) fuel 1 [] 0 with
  | some (.ok _) => true
  | _ => false

/-! ### Concrete sample inputs -/

/-- A card with no dex numbers whose name normalizes to nothing. -/
def exCard : RawCard :=
  { supertype := "Pokémon", name := "EX", number := "1", rarity := none
    types := [], subtypes := [], image_small := "", dexNumbers := [] }

/-- A plain Pikachu card carrying dex number 25. -/
def pika25 : RawCard :=
  { supertype := "Pokémon", name := "Pikachu", number := "25a", rarity := some "Common"
    types := ["Lightning"], subtypes := [], image_small := "", dexNumbers := [25] }

/-- A Raichu card also carrying first dex number 25. -/
def raichu25 : RawCard :=
  { supertype := "Pokémon", name := "Raichu", number := "26a", rarity := some "Rare"
    types := ["Lightning"], subtypes := [], image_small := "", dexNumbers := [25] }

/-- A Pikachu VMAX card carrying dex number 25. -/
def pikaVmax : RawCard :=
  { supertype := "Pokémon", name := "Pikachu VMAX", number := "25b", rarity := some "Rare"
    types := ["Lightning"], subtypes := ["VMAX"], image_small := "", dexNumbers := [25] }

/-- Three cards of one creature: two with an explicitly empty rarity string,
one "Rare". -/
def emptyRarityCards : List RawCard :=
  [ { supertype := "Pokémon", name := "Squirtle", number := "7a", rarity := some ""
      types := ["Water"], subtypes := [], image_small := "", dexNumbers := [7] }
  , { supertype := "Pokémon", name := "Squirtle", number := "7b", rarity := some ""
      types := ["Water"], subtypes := [], image_small := "", dexNumbers := [7] }
  , { supertype := "Pokémon", name := "Squirtle", number := "7c", rarity := some "Rare"
      types := ["Water"], subtypes := [], image_small := "", dexNumbers := [7] } ]

/-- Two cards of one creature, one of them lacking a rarity field. -/
def bulbaCards : List RawCard :=
  [ { supertype := "Pokémon", name := "Bulbasaur", number := "1a", rarity := none
      types := ["Grass"], subtypes := [], image_small := "", dexNumbers := [1] }
  , { supertype := "Pokémon", name := "Bulbasaur", number := "1b", rarity := some "Rare"
      types := ["Grass"], subtypes := [], image_small := "", dexNumbers := [1] } ]

/-- A card with no dex numbers and an explicitly empty rarity string. -/
def mewEmptyRarity : RawCard :=
  { supertype := "Pokémon", name := "Mew", number := "8", rarity := some ""
    types := ["Psychic"], subtypes := [], image_small := "", dexNumbers := [] }

/-- Member cards with dex lists `[3]` and `[3, 6]` (same first dex). -/
def venusaurCards : List RawCard :=
  [ { supertype := "Pokémon", name := "Venusaur", number := "3a", rarity := some "Rare"
      types := ["Grass"], subtypes := [], image_small := "", dexNumbers := [3] }
  , { supertype := "Pokémon", name := "Venusaur ex", number := "3b", rarity := none
      types := ["Grass"], subtypes := ["ex"], image_small := "", dexNumbers := [3, 6] } ]

/-- Sample set descriptors. -/
def setA : SetInfo :=
  { id := "A", name := "Set A", series := "S1", releaseDate := "2024/01/01"
    total := 10, logo := "", symbol := "" }

/-- Second sample set descriptor. -/
def setB : SetInfo :=
  { id := "B", name := "Set B", series := "S1", releaseDate := "2024/02/01"
    total := 10, logo := "", symbol := "" }

/-- Third sample set descriptor. -/
def setC : SetInfo :=
  { id := "C", name := "Set C", series := "S2", releaseDate := "2024/03/01"
    total := 10, logo := "", symbol := "" }

/-- A previously persisted record for `setA`. -/
def recA : SetDataR := mkSetDataR setA []

/-- A previously persisted record for `setB`. -/
def recB : SetDataR := mkSetDataR setB []

/-- A page oracle that always answers an empty page with the given
`totalCount`. -/
def fpConst (t : Nat) : Nat → Except String (List RawCard × Nat) :=
  fun _ => Except.ok ([], t)

/-- A per-set page oracle that always answers an empty page with the given
`totalCount`. -/
def fpSetConst (t : Nat) : String → Nat → Except String (List RawCard × Nat) :=
  fun _ _ => Except.ok ([], t)

/-- A per-set page oracle whose every request fails. -/
def fpErr : String → Nat → Except String (List RawCard × Nat) :=
  fun _ _ => Except.error "HTTPError"

/-- A checkpoint oracle that always succeeds. -/
def saveOK : List SetDataR → Bool := fun _ => true

/-- A checkpoint oracle that always fails. -/
def saveFail : List SetDataR → Bool := fun _ => false

/-! ## Helper lemmas -/

/-- The remote driver never reads the checkpoint oracle's verdict: the
source catches the write exception and only prints a warning. -/
theorem remoteDriver_save_irrel (fp : String → Nat → Except String (List RawCard × Nat))
    (save save2 : List SetDataR → Bool) (fuel : Nat) (processed : List String) :
    ∀ sets st, remoteDriver fp save fuel processed sets st
      = remoteDriver fp save2 fuel processed sets st := by
  intro sets
  induction sets with
  | nil => intro st; rfl
  | cons s rest ih =>
    intro st
    obtain ⟨data, failed⟩ := st
    simp only [remoteDriver]
    by_cases hc : processed.contains s.id = true
    · simp only [if_pos hc]; exact ih _
    · simp only [if_neg hc]
      cases hpl : pageLoopE (fp s.id) fuel 1 [] 0 with
      | none => simp
      | some r =>
        cases r with
        | error e => simp only [hpl]; exact ih _
        | ok pr =>
          obtain ⟨cards, cnt⟩ := pr
          simp only [hpl]
          cases hb : save (data ++ [mkSetDataR s cards]) <;>
            cases hb2 : save2 (data ++ [mkSetDataR s cards]) <;>
              simp only [hb, hb2] <;> exact ih _

/-! ## Claims -/

/-- C8: a Pokémon-supertype card with empty `dexNumbers` whose name
normalizes to nothing is silently excluded from grouping in both variants;
a set whose only such card is of this shape yields zero creature entries. -/
theorem unresolvable_card_excluded (c : RawCard) (cs : List RawCard)
    (h1 : c.supertype = "Pokémon") (h2 : c.dexNumbers = [])
    (h3 : normalize_pokemon_name c.name = none) :
    localPokemon (c :: cs) = localPokemon cs
    ∧ remotePokemon (c :: cs) = remotePokemon cs
    ∧ localPokemon [c] = [] ∧ remotePokemon [c] = [] := by
  have hL : stepL [] c = [] := by simp [stepL, h1, localKey, h2, h3]
  have hR : stepR [] c = [] := by simp [stepR, h1, remoteKey, h3]
  refine ⟨?_, ?_, ?_, ?_⟩ <;>
    simp [localPokemon, remotePokemon, pokemonGroupsL, pokemonGroupsR, hL, hR]

/-- C8 witness: the "EX" card at work. -/
theorem unresolvable_card_excluded_witness :
    localPokemon [exCard] = [] ∧ remotePokemon [exCard] = [] := by
  have h := unresolvable_card_excluded exCard [] rfl rfl (by decide)
  exact ⟨h.2.2.1, h.2.2.2⟩

/-- C9: in the remote variant a set whose fetch fails is recorded in the
failure list with its error description, no record is appended for it, the
accumulated records are untouched, and the driver continues with the
remaining sets. -/
theorem remote_failure_recorded (fp : String → Nat → Except String (List RawCard × Nat))
    (save : List SetDataR → Bool) (fuel : Nat) (processed : List String)
    (s : SetInfo) (rest : List SetInfo) (data : List SetDataR)
    (failed : List FailedSet) (e : String)
    (hskip : processed.contains s.id = false)
    (herr : pageLoopE (fp s.id) fuel 1 [] 0 = some (.error e)) :
    remoteDriver fp save fuel processed (s :: rest) (data, failed)
      = remoteDriver fp save fuel processed rest (data, failed ++ [⟨s.id, s.name, e⟩]) := by
  have hns : ¬(processed.contains s.id = true) := by simp only [hskip]; decide
  simp only [remoteDriver, if_neg hns, herr]

/-- C9 witness: one set whose every page request fails ends up in the
failure list and the run still finishes. -/
theorem remote_failure_recorded_witness :
    remoteDriver fpErr saveOK 3 [] [setA] ([], [])
      = some ([], [⟨"A", "Set A", "HTTPError"⟩]) := by
  have h := remote_failure_recorded fpErr saveOK 3 [] setA [] [] [] "HTTPError" rfl rfl
  simpa [remoteDriver, setA] using h

/-- C10: a checkpoint-write failure is caught and only logged: the freshly
appended record stays in the accumulated result, the failure list is
untouched, processing continues, and in fact the driver's outcome never
depends on the checkpoint oracle at all. -/
theorem checkpoint_failure_ignored (fp : String → Nat → Except String (List RawCard × Nat))
    (save save2 : List SetDataR → Bool) (fuel : Nat) (processed : List String)
    (s : SetInfo) (rest : List SetInfo) (data : List SetDataR)
    (failed : List FailedSet) (cards : List RawCard) (cnt : Nat)
    (hskip : processed.contains s.id = false)
    (hok : pageLoopE (fp s.id) fuel 1 [] 0 = some (.ok (cards, cnt)))
    (hsave : save (data ++ [mkSetDataR s cards]) = false) :
    remoteDriver fp save fuel processed (s :: rest) (data, failed)
      = remoteDriver fp save fuel processed rest (data ++ [mkSetDataR s cards], failed)
    ∧ ∀ sets st, remoteDriver fp save fuel processed sets st
        = remoteDriver fp save2 fuel processed sets st := by
  constructor
  · have hns : ¬(processed.contains s.id = true) := by simp only [hskip]; decide
    simp only [remoteDriver, if_neg hns, hok, hsave]
  · exact remoteDriver_save_irrel fp save save2 fuel processed

/-- C10 witness: a failing checkpoint still leaves the set's record in the
result and records no failure. -/
theorem checkpoint_failure_ignored_witness :
    remoteDriver (fpSetConst 0) saveFail 2 [] [setA] ([], [])
      = some ([mkSetDataR setA []], []) := by
  have h := checkpoint_failure_ignored (fpSetConst 0) saveFail saveOK 2 [] setA [] [] []
    [] 1 rfl rfl rfl
  simpa [remoteDriver] using h.1

/-- C3 (amended): a single-name series filter selects, in both variants,
exactly the descriptors whose series matches case-insensitively; a list
filter is honoured only by the local variant and matches case-SENSITIVELY,
while the remote variant's run aborts on a non-empty list filter whenever
the fetched set list is non-empty (an empty fetched list is returned
unfiltered-empty, as the comprehension never evaluates the condition). -/
theorem series_filter_amended (sets : List SetInfo) (s : String) (l : List String)
    (st : SetInfo) (hs : s ≠ "") (hl : l ≠ []) :
    (st ∈ load_sets sets (.single s) ↔ st ∈ sets ∧ strLower st.series = strLower s)
    ∧ fetch_all_sets sets (.single s) = some (load_sets sets (.single s))
    ∧ (st ∈ load_sets sets (.names l) ↔ st ∈ sets ∧ st.series ∈ l)
    ∧ (sets ≠ [] → fetch_all_sets sets (.names l) = none)
    ∧ fetch_all_sets [] (.names l) = some [] := by
  refine ⟨?_, ?_, ?_, ?_, ?_⟩
  · simp [load_sets, hs, List.mem_filter]
  · simp [load_sets, fetch_all_sets, hs]
  · simp [load_sets, hl, List.mem_filter, List.contains]
  · intro hsets
    simp [fetch_all_sets, hl, hsets]
  · simp [fetch_all_sets, hl]

/-- C3 witness: filter "s1" (single) selects the series-"S1" descriptor;
filter ["S1"] (list, exact case) selects it in the local variant, aborts
the remote variant on the non-empty set list, and leaves the empty set
list error-free. -/
theorem series_filter_amended_witness :
    (setA ∈ load_sets [setA] (SeriesFilter.single "s1")
      ↔ setA ∈ [setA] ∧ strLower setA.series = strLower "s1")
    ∧ fetch_all_sets [setA] (SeriesFilter.single "s1")
      = some (load_sets [setA] (SeriesFilter.single "s1"))
    ∧ (setA ∈ load_sets [setA] (SeriesFilter.names ["S1"])
      ↔ setA ∈ [setA] ∧ setA.series ∈ ["S1"])
    ∧ ([setA] ≠ [] → fetch_all_sets [setA] (SeriesFilter.names ["S1"]) = none)
    ∧ fetch_all_sets [] (SeriesFilter.names ["S1"]) = some [] :=
  series_filter_amended [setA] "s1" ["S1"] setA (by decide) (by decide)

/-- C3 counterexample: under the list filter `["s1"]` the local variant
does NOT select the set with series "S1", although the series matches the
filter name case-insensitively — list filters are case-sensitive. -/
theorem series_filter_cex :
    setA ∉ load_sets [setA] (SeriesFilter.names ["s1"])
    ∧ strLower setA.series = strLower "s1" := by
  exact ⟨by decide, by decide⟩

/-- The page loop under a fixed server-reported total `t` and no transport
errors: starting from page `page ≤ t / page_size + 1`, it fetches exactly
pages `page .. t / page_size + 1`. -/
theorem pageLoopE_fixed_total (fp : Nat → Except String (List RawCard × Nat))
    (data : Nat → List RawCard) (t : Nat)
    (hfp : ∀ p, fp p = Except.ok (data p, t)) :
    ∀ fuel page acc cnt, page ≤ t / page_size + 1 → t / page_size + 1 - page < fuel →
    ∃ cs, pageLoopE fp fuel page acc cnt
      = some (Except.ok (cs, cnt + (t / page_size + 1 - page) + 1)) := by
  intro fuel
  induction fuel with
  | zero => intro page acc cnt hp hf; omega
  | succ fuel ih =>
    intro page acc cnt hp hf
    rw [pageLoopE, hfp page]
    by_cases hbr : t / page_size + 1 ≤ page
    · have hpe : t / page_size + 1 - page = 0 := by omega
      simp only [if_pos hbr, hpe]
      exact ⟨acc ++ data page, rfl⟩
    · simp only [if_neg hbr]
      obtain ⟨cs, hcs⟩ := ih (page + 1) (acc ++ data page) (cnt + 1) (by omega) (by omega)
      have harith : cnt + 1 + (t / page_size + 1 - (page + 1)) + 1
          = cnt + (t / page_size + 1 - page) + 1 := by omega
      rw [harith] at hcs
      exact ⟨cs, hcs⟩

/-- C2 (amended): with a fixed server-reported total `t` and enough fuel,
the loop fetches exactly `t / pageSize + 1` pages — the least `n` with
`n * pageSize > t` (strictly greater: when `pageSize` divides `t` this is
one more page than the least `n` with `n * pageSize ≥ t`). -/
theorem page_loop_pages_amended (fp : Nat → Except String (List RawCard × Nat))
    (data : Nat → List RawCard) (t fuel : Nat)
    (hfp : ∀ p, fp p = Except.ok (data p, t)) (hfuel : t / page_size + 1 ≤ fuel) :
    (∃ cs, pageLoopE fp fuel 1 [] 0 = some (Except.ok (cs, t / page_size + 1)))
    ∧ t < (t / page_size + 1) * page_size
    ∧ (∀ n, t < n * page_size → t / page_size + 1 ≤ n) := by
  have hps : 0 < page_size := by decide
  refine ⟨?_, ?_, ?_⟩
  · have h1 : (1 : Nat) ≤ t / page_size + 1 := Nat.le_add_left 1 _
    have h2 : t / page_size + 1 - 1 < fuel := by
      rw [Nat.add_sub_cancel]; exact Nat.lt_of_succ_le hfuel
    obtain ⟨cs, hcs⟩ := pageLoopE_fixed_total fp data t hfp fuel 1 [] 0 h1 h2
    have harith : 0 + (t / page_size + 1 - 1) + 1 = t / page_size + 1 := by
      rw [Nat.add_sub_cancel, Nat.zero_add]
    rw [harith] at hcs
    exact ⟨cs, hcs⟩
  · exact (Nat.div_lt_iff_lt_mul hps).mp (Nat.lt_succ_self _)
  · intro n hn
    have : t / page_size < n := (Nat.div_lt_iff_lt_mul hps).mpr hn
    omega

/-- C2 witness: total 37, page size 50 — a single page is fetched, and 1 is
the least page count whose capacity strictly exceeds 37. -/
theorem page_loop_pages_amended_witness :
    (∃ cs, pageLoopE (fpConst 37) 5 1 [] 0 = some (Except.ok (cs, 37 / page_size + 1)))
    ∧ 37 < (37 / page_size + 1) * page_size
    ∧ (∀ n, 37 < n * page_size → 37 / page_size + 1 ≤ n) :=
  page_loop_pages_amended (fpConst 37) (fun _ => []) 37 5 (fun _ => rfl) (by decide)

/-- C2 counterexample: with totalCount 100 and page size 50 the loop
fetches 3 pages, although 2 pages already satisfy
`page * pageSize ≥ totalCount` — the fetched count is not the least `n`
with `n * pageSize ≥ totalCount`. -/
theorem page_loop_cex :
    pageLoopE (fpConst 100) 10 1 [] 0 = some (Except.ok ([], 3))
    ∧ (100 : Nat) ≤ 2 * page_size ∧ (2 : Nat) < 3 :=
  ⟨rfl, by decide, by decide⟩

/-- C1 (amended): in the LOCAL variant the grouping key of a card with
non-empty `dexNumbers` is `Dex(dexNumbers[0])` regardless of its name, and
two Pokémon cards sharing the first dex number merge into a single entry
whose `card_count` counts both; the REMOTE variant keys by normalized name
only. -/
theorem dex_key_amended (c c1 c2 : RawCard) (n : Nat) (ns ms : List Nat)
    (h1 : c1.supertype = "Pokémon") (h2 : c2.supertype = "Pokémon")
    (hd : c.dexNumbers ≠ []) (hd1 : c1.dexNumbers = n :: ns)
    (hd2 : c2.dexNumbers = n :: ms) :
    localKey c = some (Key.dex c.dexNumbers.headI)
    ∧ remoteKey c = normalize_pokemon_name c.name
    ∧ (localPokemon [c1, c2]).map (·.card_count) = [2] := by
  refine ⟨?_, rfl, ?_⟩
  · cases hdn : c.dexNumbers with
    | nil => exact absurd hdn hd
    | cons m rest => simp [localKey, hdn]
  · have hg : pokemonGroupsL [c1, c2] = [(Key.dex n, [cardInfoL c1, cardInfoL c2])] := by
      simp [pokemonGroupsL, stepL, localKey, h1, h2, hd1, hd2, addToGroups]
    simp [localPokemon, hg, mkEntryL]

/-- C1 witness: "Pikachu VMAX" and "Pikachu", both dex 25, merge into one
local entry counting both cards. -/
theorem dex_key_amended_witness :
    localKey pika25 = some (Key.dex 25)
    ∧ remoteKey pika25 = normalize_pokemon_name pika25.name
    ∧ (localPokemon [pikaVmax, pika25]).map (·.card_count) = [2] :=
  dex_key_amended pika25 pikaVmax pika25 25 [] [] rfl rfl (by decide) rfl rfl

/-- C1 counterexample: in the remote variant a Pikachu card and a Raichu
card both carrying first dex number 25 produce TWO entries with one card
each — not one merged entry whose `cardCount` counts both, as the claim
asserts for both variants. -/
theorem dex_key_cex :
    (remotePokemon [pika25, raichu25]).map (·.card_count) = [1, 1]
    ∧ (remotePokemon [pika25, raichu25]).map (·.name) = ["pikachu", "raichu"] :=
  ⟨by decide, by decide⟩

/-! ### Rarity-mode lemmas -/

/-- The running best of the `max(..., key=count)` fold counts at least as
much as the seed and as every processed candidate. -/
theorem count_le_foldlBest (l : List String) :
    ∀ (ys : List String) (b : String),
      l.count b ≤ l.count (ys.foldl (fun best y => if l.count best < l.count y then y else best) b)
      ∧ ∀ y ∈ ys, l.count y
        ≤ l.count (ys.foldl (fun best y => if l.count best < l.count y then y else best) b) := by
  intro ys
  induction ys with
  | nil =>
    intro b
    exact ⟨le_refl _, fun y hy => absurd hy (List.not_mem_nil y)⟩
  | cons y ys ih =>
    intro b
    simp only [List.foldl_cons]
    have h1 : l.count b ≤ l.count (if l.count b < l.count y then y else b) := by
      split <;> omega
    have h2 : l.count y ≤ l.count (if l.count b < l.count y then y else b) := by
      split <;> omega
    obtain ⟨ha, hmem⟩ := ih (if l.count b < l.count y then y else b)
    refine ⟨le_trans h1 ha, ?_⟩
    intro z hz
    rcases List.mem_cons.mp hz with rfl | hz2
    · exact le_trans h2 ha
    · exact hmem z hz2

/-- The `max(..., key=count)` fold returns the seed or a candidate. -/
theorem foldlBest_mem (l : List String) :
    ∀ (ys : List String) (b : String),
      (ys.foldl (fun best y => if l.count best < l.count y then y else best) b) ∈ b :: ys := by
  intro ys
  induction ys with
  | nil => intro b; simp
  | cons y ys ih =>
    intro b
    simp only [List.foldl_cons]
    have h := ih (if l.count b < l.count y then y else b)
    rcases List.mem_cons.mp h with h1 | h1
    · rw [h1]
      split
      · simp
      · simp
    · simp [h1]

/-- `max(set(l), key=l.count)` picks a value of maximal frequency. -/
theorem pyModeMax_count_ge (l : List String) (v : String) :
    l.count v ≤ l.count (pyModeMax l) := by
  unfold pyModeMax
  cases hd : l.dedup with
  | nil =>
    have h0 : l = [] := (List.dedup_eq_nil l).mp hd
    subst h0; simp
  | cons x xs =>
    by_cases hv : v ∈ l
    · have hvd : v ∈ l.dedup := List.mem_dedup.mpr hv
      rw [hd] at hvd
      rcases List.mem_cons.mp hvd with rfl | hmem
      · exact (count_le_foldlBest l xs v).1
      · exact (count_le_foldlBest l xs x).2 v hmem
    · rw [List.count_eq_zero.mpr hv]
      exact Nat.zero_le _

/-- On a non-empty list, the chosen mode is one of the list's values. -/
theorem pyModeMax_mem (l : List String) (hl : l ≠ []) : pyModeMax l ∈ l := by
  unfold pyModeMax
  cases hd : l.dedup with
  | nil => exact absurd ((List.dedup_eq_nil l).mp hd) hl
  | cons x xs =>
    have h := foldlBest_mem l xs x
    rw [← hd] at h
    exact List.mem_dedup.mp h

/-! ### Entry projection lemmas -/

/-- The members of a local entry are its group. -/
theorem mkEntryL_cards (k : Key) (g : List CardInfoL) : (mkEntryL k g).cards = g := rfl

/-- A local entry counts its group. -/
theorem mkEntryL_card_count (k : Key) (g : List CardInfoL) :
    (mkEntryL k g).card_count = g.length := rfl

/-- A local entry's rarity: empty-string rarities are dropped before the
mode; "Common" when nothing remains. -/
theorem mkEntryL_rarity (k : Key) (g : List CardInfoL) :
    (mkEntryL k g).rarity
      = if (g.map (·.rarity)).filter (fun r => decide (r ≠ "")) = [] then "Common"
        else pyModeMax ((g.map (·.rarity)).filter (fun r => decide (r ≠ ""))) := rfl

/-- A local entry's dex list: the sorted dedup of all members' dex lists. -/
theorem mkEntryL_dex_numbers (k : Key) (g : List CardInfoL) :
    (mkEntryL k g).dex_numbers
      = if ((g.map (·.dex_numbers)).flatten).dedup = [] then []
        else (((g.map (·.dex_numbers)).flatten).dedup).insertionSort (· ≤ ·) := rfl

/-- The members of a remote entry are its group. -/
theorem mkEntryR_cards (k : String) (g : List CardInfoR) : (mkEntryR k g).cards = g := rfl

/-- A remote entry counts its group. -/
theorem mkEntryR_card_count (k : String) (g : List CardInfoR) :
    (mkEntryR k g).card_count = g.length := rfl

/-- A remote entry's rarity is the plain mode of the defaulted rarities. -/
theorem mkEntryR_rarity (k : String) (g : List CardInfoR) :
    (mkEntryR k g).rarity = pyModeMax (g.map (·.rarity)) := rfl

/-- C4 (amended): a remote entry's rarity has maximal frequency among the
members' (absent-defaulted-to-"Common") rarities; a local entry drops
explicitly empty rarity strings before the mode, falling back to "Common"
when none remain, and its rarity has maximal frequency among the remaining
ones. -/
theorem rarity_mode_amended (cs ds : List RawCard) (e : PokemonEntryR) (f : PokemonEntryL)
    (he : e ∈ remotePokemon cs) (hf : f ∈ localPokemon ds) :
    (∀ v, (e.cards.map (·.rarity)).count v ≤ (e.cards.map (·.rarity)).count e.rarity)
    ∧ ((f.cards.map (·.rarity)).filter (fun r => decide (r ≠ "")) = [] → f.rarity = "Common")
    ∧ ((f.cards.map (·.rarity)).filter (fun r => decide (r ≠ "")) ≠ [] →
        f.rarity ∈ (f.cards.map (·.rarity)).filter (fun r => decide (r ≠ ""))
        ∧ ∀ v, ((f.cards.map (·.rarity)).filter (fun r => decide (r ≠ ""))).count v
            ≤ ((f.cards.map (·.rarity)).filter (fun r => decide (r ≠ ""))).count f.rarity) := by
  obtain ⟨⟨k, g⟩, hg, rfl⟩ := List.mem_map.mp he
  obtain ⟨⟨k2, g2⟩, hg2, rfl⟩ := List.mem_map.mp hf
  refine ⟨?_, ?_, ?_⟩
  · intro v
    rw [mkEntryR_cards, mkEntryR_rarity]
    exact pyModeMax_count_ge _ v
  · intro hrs
    rw [mkEntryL_cards] at hrs
    rw [mkEntryL_rarity, if_pos hrs]
  · intro hrs
    rw [mkEntryL_cards] at hrs
    rw [mkEntryL_cards, mkEntryL_rarity, if_neg hrs]
    exact ⟨pyModeMax_mem _ hrs, fun v => pyModeMax_count_ge _ v⟩

/-- C4 witness: two Bulbasaur cards, one lacking rarity (counted as
"Common"), one "Rare". -/
theorem rarity_mode_amended_witness :
    (∀ v, (((remotePokemon bulbaCards).headI.cards.map (·.rarity)).count v
      ≤ ((remotePokemon bulbaCards).headI.cards.map (·.rarity)).count
          (remotePokemon bulbaCards).headI.rarity))
    ∧ (((localPokemon bulbaCards).headI.cards.map (·.rarity)).filter
          (fun r => decide (r ≠ "")) = []
        → (localPokemon bulbaCards).headI.rarity = "Common")
    ∧ (((localPokemon bulbaCards).headI.cards.map (·.rarity)).filter
          (fun r => decide (r ≠ "")) ≠ []
        → (localPokemon bulbaCards).headI.rarity
            ∈ ((localPokemon bulbaCards).headI.cards.map (·.rarity)).filter
                (fun r => decide (r ≠ ""))
          ∧ ∀ v, (((localPokemon bulbaCards).headI.cards.map (·.rarity)).filter
                (fun r => decide (r ≠ ""))).count v
              ≤ (((localPokemon bulbaCards).headI.cards.map (·.rarity)).filter
                (fun r => decide (r ≠ ""))).count (localPokemon bulbaCards).headI.rarity) :=
  rarity_mode_amended bulbaCards bulbaCards
    (remotePokemon bulbaCards).headI (localPokemon bulbaCards).headI
    (by decide) (by decide)

/-- C4 counterexample: with member rarities ["", "", "Rare"] the local
variant picks "Rare", whose frequency (1) is NOT maximal among the members'
rarity fields ("" occurs twice) — the claim fails on the local variant. -/
theorem rarity_mode_cex :
    ¬ ∀ f ∈ localPokemon emptyRarityCards, ∀ v : String,
        (f.cards.map (·.rarity)).count v ≤ (f.cards.map (·.rarity)).count f.rarity := by
  intro h
  exact absurd (h (localPokemon emptyRarityCards).headI (by decide) "") (by decide)

/-! ### Grouping-key lemmas -/

/-- Filing a card under a key either leaves the key list unchanged or
appends the new key at the end. -/
theorem addToGroups_keys {α β : Type} [DecidableEq α] (k : α) (ci : β) :
    ∀ gs : List (α × List β),
      (addToGroups gs k ci).map Prod.fst
        = if k ∈ gs.map Prod.fst then gs.map Prod.fst else gs.map Prod.fst ++ [k] := by
  intro gs
  induction gs with
  | nil => simp [addToGroups]
  | cons g rest ih =>
    obtain ⟨k', l⟩ := g
    by_cases h : k' = k
    · subst h
      simp [addToGroups]
    · simp only [addToGroups, if_neg h, List.map_cons, ih]
      by_cases h2 : k ∈ rest.map Prod.fst
      · rw [if_pos h2, if_pos (List.mem_cons_of_mem _ h2)]
      · have hknot : k ∉ k' :: rest.map Prod.fst := by
          simp only [List.mem_cons]
          rintro (rfl | hc)
          · exact h rfl
          · exact h2 hc
        rw [if_neg h2, if_neg hknot, List.cons_append]

/-- Filing a card preserves distinctness of the group keys. -/
theorem addToGroups_keys_nodup {α β : Type} [DecidableEq α] (k : α) (ci : β)
    (gs : List (α × List β)) (h : (gs.map Prod.fst).Nodup) :
    ((addToGroups gs k ci).map Prod.fst).Nodup := by
  by_cases hk : k ∈ gs.map Prod.fst
  · rw [addToGroups_keys, if_pos hk]; exact h
  · rw [addToGroups_keys, if_neg hk]
    refine List.Nodup.append h (List.nodup_singleton k) ?_
    intro a ha hb
    rw [List.mem_singleton] at hb
    exact hk (hb ▸ ha)

/-- One local loop iteration preserves key distinctness. -/
theorem stepL_keys_nodup (gs : List (Key × List CardInfoL)) (c : RawCard)
    (h : (gs.map Prod.fst).Nodup) : ((stepL gs c).map Prod.fst).Nodup := by
  unfold stepL
  by_cases hs : c.supertype ≠ "Pokémon"
  · rw [if_pos hs]; exact h
  · rw [if_neg hs]
    cases hk : localKey c with
    | none => exact h
    | some k => exact addToGroups_keys_nodup k _ gs h

/-- One remote loop iteration preserves key distinctness. -/
theorem stepR_keys_nodup (gs : List (String × List CardInfoR)) (c : RawCard)
    (h : (gs.map Prod.fst).Nodup) : ((stepR gs c).map Prod.fst).Nodup := by
  unfold stepR
  by_cases hs : c.supertype ≠ "Pokémon"
  · rw [if_pos hs]; exact h
  · rw [if_neg hs]
    cases hk : remoteKey c with
    | none => exact h
    | some k => exact addToGroups_keys_nodup k _ gs h

/-- The local grouping fold keeps group keys pairwise distinct. -/
theorem foldl_stepL_keys_nodup (cards : List RawCard) :
    ∀ gs : List (Key × List CardInfoL), (gs.map Prod.fst).Nodup →
      ((cards.foldl stepL gs).map Prod.fst).Nodup := by
  induction cards with
  | nil => intro gs h; exact h
  | cons c rest ih =>
    intro gs h
    rw [List.foldl_cons]
    exact ih _ (stepL_keys_nodup gs c h)

/-- The remote grouping fold keeps group keys pairwise distinct. -/
theorem foldl_stepR_keys_nodup (cards : List RawCard) :
    ∀ gs : List (String × List CardInfoR), (gs.map Prod.fst).Nodup →
      ((cards.foldl stepR gs).map Prod.fst).Nodup := by
  induction cards with
  | nil => intro gs h; exact h
  | cons c rest ih =>
    intro gs h
    rw [List.foldl_cons]
    exact ih _ (stepR_keys_nodup gs c h)

/-- A local entry's dex list is strictly ascending. -/
theorem mkEntryL_dex_sorted (k : Key) (g : List CardInfoL) :
    (mkEntryL k g).dex_numbers.Sorted (· < ·) := by
  rw [mkEntryL_dex_numbers]
  by_cases h : ((g.map (·.dex_numbers)).flatten).dedup = []
  · rw [if_pos h]; exact List.sorted_nil
  · rw [if_neg h]
    have hs := List.sorted_insertionSort (α := Nat) (· ≤ ·)
      (((g.map (·.dex_numbers)).flatten).dedup)
    have hn : ((((g.map (·.dex_numbers)).flatten).dedup).insertionSort (· ≤ ·)).Nodup :=
      (List.perm_insertionSort (· ≤ ·) _).nodup_iff.mpr (List.nodup_dedup _)
    exact hs.lt_of_le hn

/-- A local entry's dex list is the union of its members' dex lists. -/
theorem mkEntryL_dex_mem (k : Key) (g : List CardInfoL) (n : Nat) :
    n ∈ (mkEntryL k g).dex_numbers ↔ ∃ c ∈ g, n ∈ c.dex_numbers := by
  rw [mkEntryL_dex_numbers]
  by_cases h : ((g.map (·.dex_numbers)).flatten).dedup = []
  · rw [if_pos h]
    simp only [List.not_mem_nil, false_iff]
    rintro ⟨c, hc, hn⟩
    have hfl : n ∈ (g.map (·.dex_numbers)).flatten :=
      List.mem_flatten.mpr ⟨c.dex_numbers, List.mem_map_of_mem _ hc, hn⟩
    have hdd := List.mem_dedup.mpr hfl
    rw [h] at hdd
    exact absurd hdd (List.not_mem_nil n)
  · rw [if_neg h, List.mem_insertionSort, List.mem_dedup, List.mem_flatten]
    constructor
    · rintro ⟨l', hl', hn⟩
      obtain ⟨c, hc, rfl⟩ := List.mem_map.mp hl'
      exact ⟨c, hc, hn⟩
    · rintro ⟨c, hc, hn⟩
      exact ⟨c.dex_numbers, List.mem_map_of_mem _ hc, hn⟩

/-- A local entry's rarity is never the empty string. -/
theorem mkEntryL_rarity_ne (k : Key) (g : List CardInfoL) : (mkEntryL k g).rarity ≠ "" := by
  rw [mkEntryL_rarity]
  by_cases h : (g.map (·.rarity)).filter (fun r => decide (r ≠ "")) = []
  · rw [if_pos h]; decide
  · rw [if_neg h]
    have hm := pyModeMax_mem _ h
    exact of_decide_eq_true (List.mem_filter.mp hm).2

/-- C5 (amended): in both variants group keys are pairwise distinct and
`card_count` equals the member-list length; in the LOCAL variant each
entry's `dex_numbers` is strictly ascending and is exactly the union of its
members' dex lists, and its rarity is never empty.  (Remote entries carry
no dex list at all, and their rarity CAN be empty — see the
counterexample.) -/
theorem set_record_invariants_amended (cs ds : List RawCard)
    (f : PokemonEntryL) (e : PokemonEntryR)
    (hf : f ∈ localPokemon cs) (he : e ∈ remotePokemon ds) :
    ((pokemonGroupsL cs).map Prod.fst).Nodup
    ∧ f.card_count = f.cards.length
    ∧ f.dex_numbers.Sorted (· < ·)
    ∧ (∀ n, n ∈ f.dex_numbers ↔ ∃ c ∈ f.cards, n ∈ c.dex_numbers)
    ∧ f.rarity ≠ ""
    ∧ ((pokemonGroupsR ds).map Prod.fst).Nodup
    ∧ e.card_count = e.cards.length := by
  obtain ⟨⟨k, g⟩, hg, rfl⟩ := List.mem_map.mp hf
  obtain ⟨⟨k2, g2⟩, hg2, rfl⟩ := List.mem_map.mp he
  refine ⟨foldl_stepL_keys_nodup cs [] (by simp), ?_, mkEntryL_dex_sorted k g, ?_,
    mkEntryL_rarity_ne k g, foldl_stepR_keys_nodup ds [] (by simp), ?_⟩
  · rw [mkEntryL_card_count, mkEntryL_cards]
  · intro n
    rw [mkEntryL_cards]
    exact mkEntryL_dex_mem k g n
  · rw [mkEntryR_card_count, mkEntryR_cards]

/-- C5 witness: member cards with dex lists [3] and [3, 6] produce one
entry with dex_numbers [3, 6]; all invariants hold on it. -/
theorem set_record_invariants_amended_witness :
    ((pokemonGroupsL venusaurCards).map Prod.fst).Nodup
    ∧ (localPokemon venusaurCards).headI.card_count
        = (localPokemon venusaurCards).headI.cards.length
    ∧ (localPokemon venusaurCards).headI.dex_numbers.Sorted (· < ·)
    ∧ (∀ n, n ∈ (localPokemon venusaurCards).headI.dex_numbers
        ↔ ∃ c ∈ (localPokemon venusaurCards).headI.cards, n ∈ c.dex_numbers)
    ∧ (localPokemon venusaurCards).headI.rarity ≠ ""
    ∧ ((pokemonGroupsR venusaurCards).map Prod.fst).Nodup
    ∧ (remotePokemon venusaurCards).headI.card_count
        = (remotePokemon venusaurCards).headI.cards.length :=
  set_record_invariants_amended venusaurCards venusaurCards
    (localPokemon venusaurCards).headI (remotePokemon venusaurCards).headI
    (by decide) (by decide)

/-- C5 counterexample: a remote entry whose sole member carries an
explicitly empty rarity string has rarity "" — "rarity is never the empty
string" fails for the remote variant. -/
theorem set_record_invariants_cex :
    ¬ ∀ e ∈ remotePokemon [mewEmptyRarity], e.rarity ≠ "" := by decide

/-! ### Remote-driver lemmas for resumability -/

/-- The ids of the accumulated records after a successful run: the incoming
ids followed by the ids of exactly those listed sets that are not yet
processed and whose fetch succeeds. -/
theorem remoteDriver_ids (fp : String → Nat → Except String (List RawCard × Nat))
    (save : List SetDataR → Bool) (fuel : Nat) (processed : List String) :
    ∀ (sets : List SetInfo) (data : List SetDataR) (failed : List FailedSet)
      (final : List SetDataR) (fails : List FailedSet),
      remoteDriver fp save fuel processed sets (data, failed) = some (final, fails) →
      final.map (·.id) = data.map (·.id)
        ++ ((sets.filter fun s => !(processed.contains s.id)
              && fetchSucceeds fp fuel s.id).map (·.id)) := by
  intro sets
  induction sets with
  | nil =>
    intro data failed final fails h
    simp only [remoteDriver] at h
    have h2 := Option.some.inj h
    have h3 : data = final := congrArg Prod.fst h2
    subst h3
    simp
  | cons s rest ih =>
    intro data failed final fails h
    simp only [remoteDriver] at h
    by_cases hc : processed.contains s.id = true
    · rw [if_pos hc] at h
      have hcond : (!(processed.contains s.id) && fetchSucceeds fp fuel s.id) = false := by
        rw [hc]; rfl
      rw [ih data failed final fails h]
      simp only [List.filter_cons, hcond, Bool.false_eq_true, if_false]
    · have hcf : processed.contains s.id = false := by
        cases hcv : processed.contains s.id
        · rfl
        · exact absurd hcv hc
      rw [if_neg hc] at h
      cases hpl : pageLoopE (fp s.id) fuel 1 [] 0 with
      | none =>
        simp only [hpl] at h
        exact Option.noConfusion h
      | some r =>
        cases r with
        | error e =>
          simp only [hpl] at h
          rw [ih data (failed ++ [⟨s.id, s.name, e⟩]) final fails h]
          have hfs : fetchSucceeds fp fuel s.id = false := by
            unfold fetchSucceeds; rw [hpl]
          have hcond : (!(processed.contains s.id) && fetchSucceeds fp fuel s.id) = false := by
            rw [hfs]; cases processed.contains s.id <;> rfl
          simp only [List.filter_cons, hcond, Bool.false_eq_true, if_false]
        | ok pr =>
          obtain ⟨cards, cnt⟩ := pr
          simp only [hpl] at h
          have h2 : remoteDriver fp save fuel processed rest
              (data ++ [mkSetDataR s cards], failed) = some (final, fails) := by
            cases hb : save (data ++ [mkSetDataR s cards]) <;>
              simp only [hb] at h <;> exact h
          rw [ih (data ++ [mkSetDataR s cards]) failed final fails h2]
          have hfs : fetchSucceeds fp fuel s.id = true := by
            unfold fetchSucceeds; rw [hpl]
          have hcond : (!(processed.contains s.id) && fetchSucceeds fp fuel s.id) = true := by
            rw [hcf, hfs]; rfl
          simp only [List.filter_cons, hcond, if_true, List.map_cons, List.map_append]
          simp [mkSetDataR]

/-- The driver never consults the page oracle on already-processed ids. -/
theorem remoteDriver_fp_congr (fp fp2 : String → Nat → Except String (List RawCard × Nat))
    (save : List SetDataR → Bool) (fuel : Nat) (processed : List String)
    (hagree : ∀ i, processed.contains i = false → fp2 i = fp i) :
    ∀ sets st, remoteDriver fp2 save fuel processed sets st
      = remoteDriver fp save fuel processed sets st := by
  intro sets
  induction sets with
  | nil => intro st; rfl
  | cons s rest ih =>
    intro st
    obtain ⟨data, failed⟩ := st
    simp only [remoteDriver]
    by_cases hc : processed.contains s.id = true
    · rw [if_pos hc, if_pos hc]; exact ih _
    · have hcf : processed.contains s.id = false := by
        cases hcv : processed.contains s.id
        · rfl
        · exact absurd hcv hc
      rw [if_neg hc, if_neg hc, hagree s.id hcf]
      cases hpl : pageLoopE (fp s.id) fuel 1 [] 0 with
      | none => rfl
      | some r =>
        cases r with
        | error e => exact ih _
        | ok pr =>
          obtain ⟨cards, cnt⟩ := pr
          cases hb : save (data ++ [mkSetDataR s cards]) <;>
            simp only [hb] <;> exact ih _

/-- C6: resumability of the remote variant.  With distinct loaded ids and
distinct listed ids, a successful run appends records exactly for the
not-yet-loaded sets whose fetch succeeds, the final artifact's set ids (the
loaded ones followed by the new ones) contain no duplicates, and sets
already in the artifact are never fetched: any oracle agreeing outside the
loaded ids produces the identical run. -/
theorem resumability_skips_processed (fp : String → Nat → Except String (List RawCard × Nat))
    (save : List SetDataR → Bool) (fuel : Nat) (loaded : List SetDataR)
    (sets : List SetInfo) (final : List SetDataR) (fails : List FailedSet)
    (hND : (loaded.map (·.id)).Nodup) (hNS : (sets.map (·.id)).Nodup)
    (hrun : build_sets_data_remote fp save fuel loaded sets = some (final, fails)) :
    final.map (·.id) = loaded.map (·.id)
      ++ ((sets.filter fun s => !((loaded.map (·.id)).contains s.id)
            && fetchSucceeds fp fuel s.id).map (·.id))
    ∧ (final.map (·.id)).Nodup
    ∧ ∀ fp2, (∀ i, i ∉ loaded.map (·.id) → fp2 i = fp i) →
        build_sets_data_remote fp2 save fuel loaded sets = some (final, fails) := by
  have hrun2 : remoteDriver fp save fuel (loaded.map (·.id)) sets (loaded, [])
      = some (final, fails) := hrun
  have hids := remoteDriver_ids fp save fuel (loaded.map (·.id)) sets loaded [] final fails hrun2
  refine ⟨hids, ?_, ?_⟩
  · rw [hids]
    have hsub : List.Sublist
        (sets.filter fun s => !((loaded.map (·.id)).contains s.id)
          && fetchSucceeds fp fuel s.id) sets := List.filter_sublist _
    refine List.Nodup.append hND (List.Nodup.sublist (hsub.map _) hNS) ?_
    intro a ha hb
    obtain ⟨s, hs, rfl⟩ := List.mem_map.mp hb
    have hcond := (List.mem_filter.mp hs).2
    have hns : (loaded.map (·.id)).contains s.id = false := by
      cases hcv : (loaded.map (·.id)).contains s.id
      · rfl
      · rw [hcv] at hcond; exact Bool.noConfusion hcond
    have hc2 : (loaded.map (·.id)).contains s.id = true := List.elem_eq_true_of_mem ha
    rw [hns] at hc2
    exact Bool.noConfusion hc2
  · intro fp2 hagree
    have hag2 : ∀ i, (loaded.map (·.id)).contains i = false → fp2 i = fp i := by
      intro i hi
      apply hagree
      intro hmem
      have hc2 : (loaded.map (·.id)).contains i = true := List.elem_eq_true_of_mem hmem
      rw [hi] at hc2
      exact Bool.noConfusion hc2
    have hcongr := remoteDriver_fp_congr fp fp2 save fuel (loaded.map (·.id)) hag2 sets
      (loaded, [])
    show remoteDriver fp2 save fuel (loaded.map (·.id)) sets (loaded, []) = some (final, fails)
    rw [hcongr]
    exact hrun2

/-- C6 witness: with records for A and B already persisted and the list
[A, B, C], only C is appended; the final id list [A, B, C] has no
duplicates. -/
theorem resumability_skips_processed_witness :
    ([recA, recB, mkSetDataR setC []].map (·.id) : List String)
      = [recA, recB].map (·.id)
      ++ (([setA, setB, setC].filter fun s =>
            !(([recA, recB].map (·.id)).contains s.id)
            && fetchSucceeds (fpSetConst 0) 2 s.id).map (·.id))
    ∧ (([recA, recB, mkSetDataR setC []].map (·.id) : List String)).Nodup
    ∧ ∀ fp2, (∀ i, i ∉ [recA, recB].map (·.id) → fp2 i = fpSetConst 0 i) →
        build_sets_data_remote fp2 saveOK 2 [recA, recB] [setA, setB, setC]
          = some ([recA, recB, mkSetDataR setC []], []) :=
  resumability_skips_processed (fpSetConst 0) saveOK 2 [recA, recB] [setA, setB, setC]
    [recA, recB, mkSetDataR setC []] [] (by decide) (by decide) (by decide)

/-! ### Tokenization lemmas for normalization -/

/-- A `Bool` that is not `true` is `false`. -/
theorem eq_false_of_not_eq_true {b : Bool} (h : ¬ b = true) : b = false := by
  cases b
  · rfl
  · exact absurd rfl h

/-- Pieces produced by the splitter are never empty. -/
theorem splitWsGo_ne_nil : ∀ (cs cur : List Char), ∀ t ∈ splitWsGo cs cur, t ≠ [] := by
  intro cs
  induction cs with
  | nil =>
    intro cur t ht
    by_cases h : cur = []
    · simp [splitWsGo, h] at ht
    · simp only [splitWsGo, if_neg h, List.mem_singleton] at ht
      exact ht ▸ h
  | cons c rest ih =>
    intro cur t ht
    simp only [splitWsGo] at ht
    by_cases hw : c.isWhitespace
    · rw [if_pos hw, List.mem_append] at ht
      rcases ht with h1 | h1
      · by_cases h : cur = []
        · simp [h] at h1
        · rw [if_neg h, List.mem_singleton] at h1
          exact h1 ▸ h
      · exact ih [] t h1
    · rw [if_neg hw] at ht
      exact ih (cur ++ [c]) t ht

/-- Pieces produced by the splitter contain no whitespace, provided the
pending chunk contains none. -/
theorem splitWsGo_not_ws : ∀ (cs cur : List Char),
    (∀ a ∈ cur, a.isWhitespace = false) →
    ∀ t ∈ splitWsGo cs cur, ∀ a ∈ t, a.isWhitespace = false := by
  intro cs
  induction cs with
  | nil =>
    intro cur hcur t ht a ha
    by_cases h : cur = []
    · simp [splitWsGo, h] at ht
    · simp only [splitWsGo, if_neg h, List.mem_singleton] at ht
      exact hcur a (ht ▸ ha)
  | cons c rest ih =>
    intro cur hcur t ht a ha
    simp only [splitWsGo] at ht
    by_cases hw : c.isWhitespace
    · rw [if_pos hw, List.mem_append] at ht
      rcases ht with h1 | h1
      · by_cases h : cur = []
        · simp [h] at h1
        · rw [if_neg h, List.mem_singleton] at h1
          exact hcur a (h1 ▸ ha)
      · exact ih [] (fun b hb => absurd hb (List.not_mem_nil b)) t h1 a ha
    · rw [if_neg hw] at ht
      refine ih (cur ++ [c]) ?_ t ht a ha
      intro b hb
      rw [List.mem_append, List.mem_singleton] at hb
      rcases hb with h1 | h1
      · exact hcur b h1
      · rw [h1]
        exact eq_false_of_not_eq_true hw

/-- Characters of the splitter's pieces come from the input or the pending
chunk. -/
theorem splitWsGo_mem_chars : ∀ (cs cur : List Char),
    ∀ t ∈ splitWsGo cs cur, ∀ a ∈ t, a ∈ cs ∨ a ∈ cur := by
  intro cs
  induction cs with
  | nil =>
    intro cur t ht a ha
    by_cases h : cur = []
    · simp [splitWsGo, h] at ht
    · simp only [splitWsGo, if_neg h, List.mem_singleton] at ht
      right
      exact ht ▸ ha
  | cons c rest ih =>
    intro cur t ht a ha
    simp only [splitWsGo] at ht
    by_cases hw : c.isWhitespace
    · rw [if_pos hw, List.mem_append] at ht
      rcases ht with h1 | h1
      · by_cases h : cur = []
        · simp [h] at h1
        · rw [if_neg h, List.mem_singleton] at h1
          right
          exact h1 ▸ ha
      · rcases ih [] t h1 a ha with h2 | h2
        · exact Or.inl (List.mem_cons_of_mem c h2)
        · exact absurd h2 (List.not_mem_nil a)
    · rw [if_neg hw] at ht
      rcases ih (cur ++ [c]) t ht a ha with h2 | h2
      · exact Or.inl (List.mem_cons_of_mem c h2)
      · rw [List.mem_append, List.mem_singleton] at h2
        rcases h2 with h3 | h3
        · exact Or.inr h3
        · exact Or.inl (h3 ▸ List.mem_cons_self c rest)

/-- Feeding a whitespace-free chunk into the splitter just extends the
pending chunk. -/
theorem splitWsGo_chunk : ∀ (t cs cur : List Char),
    (∀ a ∈ t, a.isWhitespace = false) →
    splitWsGo (t ++ cs) cur = splitWsGo cs (cur ++ t) := by
  intro t
  induction t with
  | nil => intro cs cur _; simp
  | cons a t ih =>
    intro cs cur h
    have ha : a.isWhitespace = false := h a (List.mem_cons_self a t)
    have hw : ¬(a.isWhitespace = true) := by rw [ha]; exact Bool.noConfusion
    show splitWsGo (a :: (t ++ cs)) cur = _
    simp only [splitWsGo, if_neg hw]
    rw [ih cs (cur ++ [a]) (fun b hb => h b (List.mem_cons_of_mem a hb))]
    congr 1
    simp

/-- Splitting the space-joined list of non-empty whitespace-free tokens
recovers the tokens. -/
theorem splitWs_joinSp : ∀ ts : List (List Char),
    (∀ t ∈ ts, t ≠ []) → (∀ t ∈ ts, ∀ a ∈ t, a.isWhitespace = false) →
    splitWs (joinSp ts) = ts := by
  intro ts
  induction ts with
  | nil => intro _ _; rfl
  | cons t ts ih =>
    intro hne hws
    cases ts with
    | nil =>
      show splitWsGo (joinSp [t]) [] = [t]
      have h1 : joinSp [t] = t := rfl
      rw [h1]
      have h2 : splitWsGo (t ++ []) [] = splitWsGo [] ([] ++ t) :=
        splitWsGo_chunk t [] [] (hws t (List.mem_cons_self t []))
      simp only [List.append_nil, List.nil_append] at h2
      rw [h2]
      simp only [splitWsGo]
      rw [if_neg (hne t (List.mem_cons_self t []))]
    | cons u us =>
      show splitWsGo (joinSp (t :: u :: us)) [] = t :: u :: us
      have hj : joinSp (t :: u :: us) = t ++ ' ' :: joinSp (u :: us) := rfl
      rw [hj, splitWsGo_chunk t (' ' :: joinSp (u :: us)) []
        (hws t (List.mem_cons_self t (u :: us)))]
      simp only [List.nil_append, splitWsGo]
      rw [if_pos (show (' ').isWhitespace = true by decide),
        if_neg (hne t (List.mem_cons_self t (u :: us)))]
      have ihh := ih (fun x hx => hne x (List.mem_cons_of_mem t hx))
        (fun x hx => hws x (List.mem_cons_of_mem t hx))
      rw [List.singleton_append]
      rw [show splitWsGo (joinSp (u :: us)) [] = splitWs (joinSp (u :: us)) from rfl, ihh]

/-- Characters of the space-joined tokens are spaces or token characters. -/
theorem mem_joinSp : ∀ (ts : List (List Char)) (a : Char),
    a ∈ joinSp ts → a = ' ' ∨ ∃ t ∈ ts, a ∈ t := by
  intro ts
  induction ts with
  | nil => intro a ha; simp [joinSp] at ha
  | cons t ts ih =>
    intro a ha
    cases ts with
    | nil => exact Or.inr ⟨t, List.mem_cons_self t [], ha⟩
    | cons u us =>
      have hj : joinSp (t :: u :: us) = t ++ ' ' :: joinSp (u :: us) := rfl
      rw [hj, List.mem_append] at ha
      rcases ha with h1 | h1
      · exact Or.inr ⟨t, List.mem_cons_self t (u :: us), h1⟩
      · rw [List.mem_cons] at h1
        rcases h1 with rfl | h1
        · exact Or.inl rfl
        · rcases ih a h1 with h2 | ⟨x, hx, h3⟩
          · exact Or.inl h2
          · exact Or.inr ⟨x, List.mem_cons_of_mem t hx, h3⟩

/-- The space-join of a non-empty list of non-empty tokens is non-empty. -/
theorem joinSp_ne_nil (ts : List (List Char)) (h : ts ≠ []) (hne : ∀ t ∈ ts, t ≠ []) :
    joinSp ts ≠ [] := by
  cases ts with
  | nil => exact absurd rfl h
  | cons t ts =>
    cases ts with
    | nil => exact hne t (List.mem_cons_self t [])
    | cons u us =>
      have hj : joinSp (t :: u :: us) = t ++ ' ' :: joinSp (u :: us) := rfl
      rw [hj]
      intro hcontra
      simp at hcontra

/-! ### Lowercasing lemmas -/

/-- A character outside the ASCII uppercase range is fixed by `toLower`. -/
theorem char_toLower_of_not_upper (d : Char) (hd : ¬(d.toNat ≥ 65 ∧ d.toNat ≤ 90)) :
    d.toLower = d := by
  show (if d.toNat ≥ 65 ∧ d.toNat ≤ 90 then Char.ofNat (d.toNat + 32) else d) = d
  rw [if_neg hd]

/-- ASCII lowercasing is idempotent. -/
theorem char_toLower_toLower (c : Char) : (c.toLower).toLower = c.toLower := by
  by_cases h : c.toNat ≥ 65 ∧ c.toNat ≤ 90
  · have h1 : c.toLower = Char.ofNat (c.toNat + 32) := by
      show (if c.toNat ≥ 65 ∧ c.toNat ≤ 90 then Char.ofNat (c.toNat + 32) else c) = _
      rw [if_pos h]
    have hv : (c.toNat + 32).isValidChar := Or.inl (by omega)
    have ht : (Char.ofNat (c.toNat + 32)).toNat = c.toNat + 32 := by
      unfold Char.ofNat
      rw [dif_pos hv]
      rfl
    rw [h1]
    apply char_toLower_of_not_upper
    rw [ht]
    omega
  · rw [char_toLower_of_not_upper c h, char_toLower_of_not_upper c h]

/-- Characters coming out of a lowercasing map are fixed by `toLower`. -/
theorem char_fixed_of_mem_map (a : Char) (l : List Char) (h : a ∈ l.map Char.toLower) :
    a.toLower = a := by
  obtain ⟨b, _, rfl⟩ := List.mem_map.mp h
  exact char_toLower_toLower b

/-- Mapping `toLower` over a list of `toLower`-fixed characters is the
identity. -/
theorem map_toLower_fixed (l : List Char) (h : ∀ a ∈ l, a.toLower = a) :
    l.map Char.toLower = l := by
  induction l with
  | nil => rfl
  | cons a l ih =>
    rw [List.map_cons, h a (List.mem_cons_self a l),
      ih (fun b hb => h b (List.mem_cons_of_mem a hb))]

/-! ### Normalization unfolding lemmas -/

/-- `normalize_pokemon_name` on a non-empty name with no surviving token. -/
theorem normalize_eq_none (s : String) (hs : ¬ s = "")
    (h : (splitWs (s.toList.map Char.toLower)).filter keepToken = []) :
    normalize_pokemon_name s = none := by
  show (if s = "" then none
    else if (splitWs (s.toList.map Char.toLower)).filter keepToken = [] then none
    else some (joinSp ((splitWs (s.toList.map Char.toLower)).filter keepToken)).asString)
    = none
  rw [if_neg hs, if_pos h]

/-- `normalize_pokemon_name` on a non-empty name with surviving tokens. -/
theorem normalize_eq_some (s : String) (hs : ¬ s = "")
    (h : ¬ (splitWs (s.toList.map Char.toLower)).filter keepToken = []) :
    normalize_pokemon_name s
      = some (joinSp ((splitWs (s.toList.map Char.toLower)).filter keepToken)).asString := by
  show (if s = "" then none
    else if (splitWs (s.toList.map Char.toLower)).filter keepToken = [] then none
    else some (joinSp ((splitWs (s.toList.map Char.toLower)).filter keepToken)).asString)
    = _
  rw [if_neg hs, if_neg h]

/-- Name normalization is idempotent (a `None` propagates through `bind`). -/
theorem normalize_pokemon_name_idem (s : String) :
    (normalize_pokemon_name s).bind normalize_pokemon_name = normalize_pokemon_name s := by
  by_cases hs : s = ""
  · simp [normalize_pokemon_name, hs]
  · by_cases hF : (splitWs (s.toList.map Char.toLower)).filter keepToken = []
    · rw [normalize_eq_none s hs hF]
      rfl
    · rw [normalize_eq_some s hs hF]
      show normalize_pokemon_name
          ((joinSp ((splitWs (s.toList.map Char.toLower)).filter keepToken)).asString)
        = some ((joinSp ((splitWs (s.toList.map Char.toLower)).filter keepToken)).asString)
      set F := (splitWs (s.toList.map Char.toLower)).filter keepToken with hFdef
      have hne : ∀ t ∈ F, t ≠ [] := fun t ht =>
        splitWsGo_ne_nil (s.toList.map Char.toLower) [] t (List.mem_filter.mp ht).1
      have hws : ∀ t ∈ F, ∀ a ∈ t, a.isWhitespace = false := fun t ht =>
        splitWsGo_not_ws (s.toList.map Char.toLower) []
          (fun b hb => absurd hb (List.not_mem_nil b)) t (List.mem_filter.mp ht).1
      have hjoin_ne : joinSp F ≠ [] := joinSp_ne_nil F hF hne
      have hstr_ne : ¬ (joinSp F).asString = "" := fun hh =>
        hjoin_ne (congrArg String.toList hh)
      have hfix : ∀ a ∈ joinSp F, a.toLower = a := by
        intro a ha
        rcases mem_joinSp F a ha with rfl | ⟨t, ht, hat⟩
        · decide
        · rcases splitWsGo_mem_chars (s.toList.map Char.toLower) [] t
            (List.mem_filter.mp ht).1 a hat with h1 | h1
          · exact char_fixed_of_mem_map a s.toList h1
          · exact absurd h1 (List.not_mem_nil a)
      have hlower : ((joinSp F).asString).toList.map Char.toLower = joinSp F :=
        map_toLower_fixed _ hfix
      have hsplit : splitWs (((joinSp F).asString).toList.map Char.toLower) = F := by
        rw [hlower]
        exact splitWs_joinSp F hne hws
      have hfilter : F.filter keepToken = F :=
        List.filter_eq_self.mpr (fun t ht => (List.mem_filter.mp ht).2)
      have hne2 : ¬ (splitWs (((joinSp F).asString).toList.map Char.toLower)).filter keepToken
          = [] := by
        rw [hsplit, hfilter]
        exact hF
      rw [normalize_eq_some ((joinSp F).asString) hstr_ne hne2, hsplit, hfilter]

/-- C7: normalization is idempotent — `normalize(normalize(s)) ==
normalize(s)` with `None` propagating — and suffix/prefix token removal is
position-independent: "dark Charizard ex" normalizes exactly like
"charizard". -/
theorem normalize_idempotent :
    (∀ s : String, (normalize_pokemon_name s).bind normalize_pokemon_name
      = normalize_pokemon_name s)
    ∧ normalize_pokemon_name "dark Charizard ex" = normalize_pokemon_name "charizard"
    ∧ normalize_pokemon_name "charizard" = some "charizard" :=
  ⟨normalize_pokemon_name_idem, by decide, by decide⟩

end Pokedex
